import Mathlib

/-!
Verification development for the Lang-Graph-Agent repository
(`src/agent.py`, `src/mcp_server.py`).

The agent walks a declarative pipeline of stages, each holding an ordered
list of ability names; every ability is dispatched to a remote MCP server
and its JSON result is merged into a mutable `state` dictionary according
to per-ability rules (`LangieAgent.apply_result_to_state`).

The embedding below models:
  * JSON values (`JValue`) with exact integer numbers,
  * Python dictionaries with insertion order as association lists
    (`StateMap`), with `setKey` = `d[k] = v` and `updateAll` = `d.update(other)`,
  * the agent (`Agent`, `execute_ability`, `run_abilities`, `run_stage`,
    `run_stages`, `demo_run`) with the remote MCP call abstracted as an
    oracle `Remote`; exceptions raised by Python code outside the
    `try/except` in `execute_ability` are modelled with `Except PyErr`.
Ghost field `Agent.calls` records every remote invocation (ability name,
request payload, request context, routing hint) in order; it mirrors the
"Calling ability ..." log entry and observes nothing the Python code does
not compute.
-/

/-- A JSON value as exchanged between the agent and the MCP server.
Numbers are modelled as exact integers (all numbers appearing in the
repository's data and in the claims are integers). -/
inductive JValue where
  | null
  | bool (b : Bool)
  | num (n : Int)
  | str (s : String)
  | arr (elems : List JValue)
  | obj (fields : List (String × JValue))

/-- A Python dict with string keys in insertion order, as used for
`LangieAgent.state`, request payloads and request contexts. -/
abbrev StateMap := List (String × JValue)

/-- Python `d.get(k)` / `k in d`: first (and in a well-formed dict, only)
binding of `k`. -/
def lookupKey : StateMap → String → Option JValue
  | [], _ => none
  | (k, v) :: rest, key => if k = key then some v else lookupKey rest key

/-- Python `d[k] = v`: overwrite in place if the key is present, else
append at the end (dicts preserve insertion order). -/
def setKey : StateMap → String → JValue → StateMap
  | [], key, v => [(key, v)]
  | (k, w) :: rest, key, v =>
      if k = key then (k, v) :: rest else (k, w) :: setKey rest key v

/-- Python `d.update(fields)` for a dict argument: assign each binding of
`fields` in order. -/
def updateAll (st : StateMap) (fields : StateMap) : StateMap :=
  fields.foldl (fun s kv => setKey s kv.1 kv.2) st

/-- The key list of a dict, in insertion order. -/
def keysOf (st : StateMap) : List String := st.map Prod.fst

theorem lookupKey_setKey_self (st : StateMap) (k : String) (v : JValue) :
    lookupKey (setKey st k v) k = some v := by
  induction st with
  | nil => simp [setKey, lookupKey]
  | cons hd tl ih =>
      obtain ⟨k', w⟩ := hd
      by_cases h : k' = k
      · simp [setKey, h, lookupKey]
      · simp [setKey, h, lookupKey, ih]

theorem lookupKey_setKey_ne (st : StateMap) (k k' : String) (v : JValue)
    (h : k ≠ k') : lookupKey (setKey st k v) k' = lookupKey st k' := by
  induction st with
  | nil => simp [setKey, lookupKey, h]
  | cons hd tl ih =>
      obtain ⟨k0, w⟩ := hd
      by_cases h0 : k0 = k
      · subst h0
        simp [setKey, lookupKey, h]
      · simp [setKey, h0, lookupKey, ih]

/-- Re-assigning the same key absorbs the earlier assignment. -/
theorem setKey_setKey_same (st : StateMap) (k : String) (v v' : JValue) :
    setKey (setKey st k v) k v' = setKey st k v' := by
  induction st with
  | nil => simp [setKey]
  | cons hd tl ih =>
      obtain ⟨k0, w⟩ := hd
      by_cases h0 : k0 = k
      · simp [setKey, h0]
      · simp [setKey, h0, ih]

/-- Assigning a key the value it already holds leaves the dict unchanged. -/
theorem setKey_self_of_lookup (st : StateMap) (k : String) (v : JValue)
    (h : lookupKey st k = some v) : setKey st k v = st := by
  induction st with
  | nil => simp [lookupKey] at h
  | cons hd tl ih =>
      obtain ⟨k0, w⟩ := hd
      by_cases h0 : k0 = k
      · subst h0
        simp [lookupKey] at h
        simp [setKey, h]
      · simp [lookupKey, h0] at h
        simp [setKey, h0, ih h]

theorem mem_keysOf_setKey_self (st : StateMap) (k : String) (v : JValue) :
    k ∈ keysOf (setKey st k v) := by
  induction st with
  | nil => simp [setKey, keysOf]
  | cons hd tl ih =>
      obtain ⟨k0, w⟩ := hd
      by_cases h0 : k0 = k
      · simp [setKey, h0, keysOf]
      · simp only [setKey, if_neg h0, keysOf, List.map_cons, List.mem_cons]
        exact Or.inr ih

theorem mem_keysOf_setKey_mono (st : StateMap) (k k' : String) (v : JValue)
    (h : k ∈ keysOf st) : k ∈ keysOf (setKey st k' v) := by
  induction st with
  | nil => simp [keysOf] at h
  | cons hd tl ih =>
      obtain ⟨k0, w⟩ := hd
      simp only [keysOf, List.map_cons, List.mem_cons] at h
      by_cases h0 : k0 = k'
      · rcases h with h | h
        · simp [setKey, h0, keysOf, h]
        · simp only [setKey, if_pos h0, keysOf, List.map_cons, List.mem_cons]
          exact Or.inr h
      · rcases h with h | h
        · simp [setKey, h0, keysOf, h]
        · simp only [setKey, if_neg h0, keysOf, List.map_cons, List.mem_cons]
          exact Or.inr (ih h)

/-- Assignments to distinct keys commute, provided the first key is
already present (so neither order can change the relative positions). -/
theorem setKey_comm_of_mem (st : StateMap) (k k' : String) (v v' : JValue)
    (hmem : k ∈ keysOf st) (hne : k ≠ k') :
    setKey (setKey st k v) k' v' = setKey (setKey st k' v') k v := by
  induction st with
  | nil => simp [keysOf] at hmem
  | cons hd tl ih =>
      obtain ⟨k0, w⟩ := hd
      simp only [keysOf, List.map_cons, List.mem_cons] at hmem
      by_cases h0 : k0 = k
      · subst h0
        simp [setKey, hne, Ne.symm hne]
      · rcases hmem with hmem | hmem
        · exact absurd hmem.symm h0
        · by_cases h1 : k0 = k'
          · simp [setKey, h0, h1, Ne.symm hne]
          · simp [setKey, h0, h1, ih hmem]

theorem updateAll_nil (st : StateMap) : updateAll st [] = st := rfl

theorem updateAll_cons (st : StateMap) (k : String) (v : JValue) (r : StateMap) :
    updateAll st ((k, v) :: r) = updateAll (setKey st k v) r := rfl

theorem lookupKey_updateAll_of_not_mem (l : StateMap) (st : StateMap) (k : String)
    (h : k ∉ keysOf l) : lookupKey (updateAll st l) k = lookupKey st k := by
  induction l generalizing st with
  | nil => rfl
  | cons hd tl ih =>
      obtain ⟨k0, v0⟩ := hd
      simp only [keysOf, List.map_cons, List.mem_cons, not_or] at h
      rw [updateAll_cons, ih _ (by simpa [keysOf] using h.2),
        lookupKey_setKey_ne _ _ _ _ (fun he => h.1 he.symm)]

theorem mem_keysOf_updateAll_mono (l : StateMap) (st : StateMap) (k : String)
    (h : k ∈ keysOf st) : k ∈ keysOf (updateAll st l) := by
  induction l generalizing st with
  | nil => exact h
  | cons hd tl ih =>
      obtain ⟨k0, v0⟩ := hd
      rw [updateAll_cons]
      exact ih _ (mem_keysOf_setKey_mono _ _ _ _ h)

/-- If `l` re-assigns key `k` anyway, a prior assignment of `k` (already
present in `st`) is invisible after `d.update(l)`. -/
theorem updateAll_setKey_of_mem (l : StateMap) (st : StateMap) (k : String) (v : JValue)
    (hst : k ∈ keysOf st) (hl : k ∈ keysOf l) :
    updateAll (setKey st k v) l = updateAll st l := by
  induction l generalizing st with
  | nil => simp [keysOf] at hl
  | cons hd tl ih =>
      obtain ⟨k0, v0⟩ := hd
      by_cases h0 : k0 = k
      · subst h0
        rw [updateAll_cons, updateAll_cons, setKey_setKey_same]
      · simp only [keysOf, List.map_cons, List.mem_cons] at hl
        rcases hl with hl | hl
        · exact absurd hl.symm h0
        · rw [updateAll_cons, updateAll_cons,
            setKey_comm_of_mem st k k0 v v0 hst (fun he => h0 he.symm)]
          exact ih _ (mem_keysOf_setKey_mono _ _ _ _ hst) hl

/-- Bulk assignment `d.update(l)` is idempotent: running the same bulk assignment twice
leaves the dict exactly as after the first run. -/
theorem updateAll_idem (l : StateMap) (st : StateMap) :
    updateAll (updateAll st l) l = updateAll st l := by
  induction l generalizing st with
  | nil => rfl
  | cons hd tl ih =>
      obtain ⟨k, v⟩ := hd
      rw [updateAll_cons, updateAll_cons]
      by_cases hmem : k ∈ keysOf tl
      · rw [updateAll_setKey_of_mem tl _ k v
          (mem_keysOf_updateAll_mono tl _ k (mem_keysOf_setKey_self st k v)) hmem]
        exact ih _
      · rw [setKey_self_of_lookup _ k v
          (by rw [lookupKey_updateAll_of_not_mem tl _ k hmem]; exact lookupKey_setKey_self st k v)]
        exact ih _

/-- A Python exception class, as raised by the dict/attribute operations
inside `LangieAgent.apply_result_to_state` (these run outside the
`try/except` of `execute_ability`, so they propagate). -/
inductive PyErr where
  | typeError
  | attributeError
  | valueError
deriving DecidableEq

/-- Python `result.get(k)` (no default): `None` when the key is absent,
`AttributeError` when `result` is not a dict. -/
def py_get (r : JValue) (k : String) : Except PyErr JValue :=
  match r with
  | .obj fs => .ok ((lookupKey fs k).getD .null)
  | _ => .error .attributeError

/-- Python `d.update(result)` on a JSON result. A JSON object updates the
dict; any other JSON value raises. (CPython would additionally accept a
sequence of key-value pairs, e.g. a JSON array of two-element arrays;
no such value reaches these call sites in the repository and the claims
only exercise mappings and scalars, so that corner is modelled as the
raising case.) -/
def dict_update (st : StateMap) (r : JValue) : Except PyErr StateMap :=
  match r with
  | .obj fs => .ok (updateAll st fs)
  | _ => .error .typeError

/-- Python `state.setdefault(key, {}).update(result)`: fetch the current
value (inserting `{}` if absent), then bulk-assign `result` into it.
A non-dict current value has no `.update` (AttributeError); a non-dict
`result` makes `.update` raise (TypeError, same modelling note as
`dict_update`). -/
def setdefault_update (st : StateMap) (key : String) (r : JValue) :
    Except PyErr StateMap :=
  match (lookupKey st key).getD (.obj []) with
  | .obj fs =>
      match r with
      | .obj rf => .ok (setKey st key (.obj (updateAll fs rf)))
      | _ => .error .typeError
  | _ => .error .attributeError

/-- Python `state.setdefault(outer, {})[inner] = result`: item assignment
on the current value of `outer` (inserting `{}` if absent); a non-dict
current value raises. -/
def setdefault_setitem (st : StateMap) (outer inner : String) (r : JValue) :
    Except PyErr StateMap :=
  match (lookupKey st outer).getD (.obj []) with
  | .obj fs => .ok (setKey st outer (.obj (setKey fs inner r)))
  | _ => .error .typeError

/-- The key extraction `lambda x: x.get("score", 0)` used by the
`solution_evaluation` merge: dict lookup with default `0`, raising on a
non-dict element. -/
def score_of (x : JValue) : Except PyErr JValue :=
  match x with
  | .obj fs => .ok ((lookupKey fs "score").getD (.num 0))
  | _ => .error .attributeError

/-- The `>` comparison `max` performs on extracted keys. Two numbers
compare; other combinations raise (CPython also orders some other
same-type pairs, e.g. two strings; the repository's scores are numbers
and any raising combination lands in the same fallback). -/
def py_gt : JValue → JValue → Except PyErr Bool
  | .num a, .num b => .ok (decide (a > b))
  | _, _ => .error .typeError

/-- The loop of Python `max(iterable, key=...)` after the first element:
a later element replaces the current best only on a strictly greater
key, so the first maximum encountered wins ties. -/
def max_loop : JValue → JValue → List JValue → Except PyErr JValue
  | best, _, [] => .ok best
  | best, bk, x :: rest =>
      match score_of x with
      | .error e => .error e
      | .ok k =>
          match py_gt k bk with
          | .error e => .error e
          | .ok true => max_loop x k rest
          | .ok false => max_loop best bk rest

/-- Python `max(result, key=lambda x: x.get("score", 0))`: empty sequence
raises ValueError, a non-sequence raises TypeError (iterating a dict or
string yields non-dict elements, on which the key function raises, so
every non-array result ends in an exception). -/
def py_max_by_score : JValue → Except PyErr JValue
  | .arr [] => .error .valueError
  | .arr (x :: rest) =>
      match score_of x with
      | .error e => .error e
      | .ok k => max_loop x k rest
  | _ => .error .typeError

/-- The `solution_evaluation` merge rule: store the result under
`evaluations`, then store the max-score element under `top_solution`,
falling back to the raw result when `max` raises (`try/except` in the
source). This merge itself never raises. -/
def sol_eval_merge (st : StateMap) (r : JValue) : StateMap :=
  match py_max_by_score r with
  | .ok top => setKey (setKey st "evaluations" r) "top_solution" top
  | .error _ => setKey (setKey st "evaluations" r) "top_solution" r

/-- The merge dispatcher `LangieAgent.apply_result_to_state`: the per-ability merge rules, as
the source's `if/elif` chain on the ability name. -/
def apply_result_to_state (ability : String) (result : JValue) (st : StateMap) :
    Except PyErr StateMap :=
  if ability = "accept_payload" then dict_update st result
  else if ability = "parse_request_text" then .ok (setKey st "summary" result)
  else if ability = "extract_entities" then .ok (setKey st "entities" result)
  else if ability = "normalize_fields" then dict_update st result
  else if ability = "enrich_records" then setdefault_update st "enrichment" result
  else if ability = "add_flags_calculations" then setdefault_update st "flags" result
  else if ability = "clarify_question" then
    match py_get result "clarify_question" with
    | .ok q => .ok (setKey (setKey st "clarify_question" q) "human_reply"
        (.str "Here is the requested order id: ORD-12345"))
    | .error e => .error e
  else if ability = "extract_answer" then
    match py_get result "answer" with
    | .ok v => .ok (setKey st "human_answer" v)
    | .error e => .error e
  else if ability = "store_answer" then
    match py_get result "stored" with
    | .ok v => .ok (setKey st "stored_answer" v)
    | .error e => .error e
  else if ability = "knowledge_base_search" then .ok (setKey st "kb" result)
  else if ability = "store_data" then .ok (setKey st "kb_stored" result)
  else if ability = "solution_evaluation" then .ok (sol_eval_merge st result)
  else if ability = "escalation_decision" then .ok (setKey st "escalation_decision" result)
  else if ability = "update_payload" then dict_update st result
  else if ability = "update_ticket" then .ok (setKey st "ticket_update" result)
  else if ability = "close_ticket" then .ok (setKey st "ticket_close" result)
  else if ability = "response_generation" then
    match py_get result "response" with
    | .ok v => .ok (setKey st "customer_response" v)
    | .error e => .error e
  else if ability = "execute_api_calls" then .ok (setKey st "api_actions" result)
  else if ability = "trigger_notifications" then .ok (setKey st "notifications" result)
  else if ability = "output_payload" then .ok (setKey st "output_payload" result)
  else setdefault_setitem st "ability_outputs" ability result

theorem except_bind_ok {α β : Type} (x : α) (f : α → Except PyErr β) :
    (Except.ok x : Except PyErr α).bind f = f x := rfl

theorem except_bind_error {α β : Type} (e : PyErr) (f : α → Except PyErr β) :
    (Except.error e : Except PyErr α).bind f = .error e := rfl

theorem apply_accept_eq (r : JValue) (st : StateMap) :
    apply_result_to_state "accept_payload" r st = dict_update st r := rfl

theorem apply_parse_eq (r : JValue) (st : StateMap) :
    apply_result_to_state "parse_request_text" r st = .ok (setKey st "summary" r) := rfl

theorem apply_entities_eq (r : JValue) (st : StateMap) :
    apply_result_to_state "extract_entities" r st = .ok (setKey st "entities" r) := rfl

theorem apply_normalize_eq (r : JValue) (st : StateMap) :
    apply_result_to_state "normalize_fields" r st = dict_update st r := rfl

theorem apply_enrich_eq (r : JValue) (st : StateMap) :
    apply_result_to_state "enrich_records" r st = setdefault_update st "enrichment" r := rfl

theorem apply_flags_eq (r : JValue) (st : StateMap) :
    apply_result_to_state "add_flags_calculations" r st = setdefault_update st "flags" r := rfl

theorem apply_clarify_eq (r : JValue) (st : StateMap) :
    apply_result_to_state "clarify_question" r st =
      match py_get r "clarify_question" with
      | .ok q => .ok (setKey (setKey st "clarify_question" q) "human_reply"
          (.str "Here is the requested order id: ORD-12345"))
      | .error e => .error e := rfl

theorem apply_extract_answer_eq (r : JValue) (st : StateMap) :
    apply_result_to_state "extract_answer" r st =
      match py_get r "answer" with
      | .ok v => .ok (setKey st "human_answer" v)
      | .error e => .error e := rfl

theorem apply_store_answer_eq (r : JValue) (st : StateMap) :
    apply_result_to_state "store_answer" r st =
      match py_get r "stored" with
      | .ok v => .ok (setKey st "stored_answer" v)
      | .error e => .error e := rfl

theorem apply_kb_eq (r : JValue) (st : StateMap) :
    apply_result_to_state "knowledge_base_search" r st = .ok (setKey st "kb" r) := rfl

theorem apply_store_data_eq (r : JValue) (st : StateMap) :
    apply_result_to_state "store_data" r st = .ok (setKey st "kb_stored" r) := rfl

theorem apply_sol_eval_eq (r : JValue) (st : StateMap) :
    apply_result_to_state "solution_evaluation" r st = .ok (sol_eval_merge st r) := rfl

theorem apply_escalation_eq (r : JValue) (st : StateMap) :
    apply_result_to_state "escalation_decision" r st = .ok (setKey st "escalation_decision" r) := rfl

theorem apply_update_payload_eq (r : JValue) (st : StateMap) :
    apply_result_to_state "update_payload" r st = dict_update st r := rfl

theorem apply_update_ticket_eq (r : JValue) (st : StateMap) :
    apply_result_to_state "update_ticket" r st = .ok (setKey st "ticket_update" r) := rfl

theorem apply_close_ticket_eq (r : JValue) (st : StateMap) :
    apply_result_to_state "close_ticket" r st = .ok (setKey st "ticket_close" r) := rfl

theorem apply_response_eq (r : JValue) (st : StateMap) :
    apply_result_to_state "response_generation" r st =
      match py_get r "response" with
      | .ok v => .ok (setKey st "customer_response" v)
      | .error e => .error e := rfl

theorem apply_api_eq (r : JValue) (st : StateMap) :
    apply_result_to_state "execute_api_calls" r st = .ok (setKey st "api_actions" r) := rfl

theorem apply_notifications_eq (r : JValue) (st : StateMap) :
    apply_result_to_state "trigger_notifications" r st = .ok (setKey st "notifications" r) := rfl

theorem apply_output_eq (r : JValue) (st : StateMap) :
    apply_result_to_state "output_payload" r st = .ok (setKey st "output_payload" r) := rfl

theorem apply_result_unknown {a : String}
    (h1 : a ≠ "accept_payload") (h2 : a ≠ "parse_request_text")
    (h3 : a ≠ "extract_entities") (h4 : a ≠ "normalize_fields")
    (h5 : a ≠ "enrich_records") (h6 : a ≠ "add_flags_calculations")
    (h7 : a ≠ "clarify_question") (h8 : a ≠ "extract_answer")
    (h9 : a ≠ "store_answer") (h10 : a ≠ "knowledge_base_search")
    (h11 : a ≠ "store_data") (h12 : a ≠ "solution_evaluation")
    (h13 : a ≠ "escalation_decision") (h14 : a ≠ "update_payload")
    (h15 : a ≠ "update_ticket") (h16 : a ≠ "close_ticket")
    (h17 : a ≠ "response_generation") (h18 : a ≠ "execute_api_calls")
    (h19 : a ≠ "trigger_notifications") (h20 : a ≠ "output_payload")
    (r : JValue) (st : StateMap) :
    apply_result_to_state a r st = setdefault_setitem st "ability_outputs" a r := by
  unfold apply_result_to_state
  rw [if_neg h1, if_neg h2, if_neg h3, if_neg h4, if_neg h5, if_neg h6, if_neg h7,
    if_neg h8, if_neg h9, if_neg h10, if_neg h11, if_neg h12, if_neg h13, if_neg h14,
    if_neg h15, if_neg h16, if_neg h17, if_neg h18, if_neg h19, if_neg h20]

/-- Setting two distinct keys, then setting them again to the same values,
is the same as setting them once. -/
theorem double_set_idem (st : StateMap) (a b : String) (x y : JValue) (hab : a ≠ b) :
    setKey (setKey (setKey (setKey st a x) b y) a x) b y = setKey (setKey st a x) b y := by
  rw [← setKey_comm_of_mem (setKey st a x) a b x y (mem_keysOf_setKey_self st a x) hab,
    setKey_setKey_same, setKey_setKey_same]

theorem dict_update_idem (st : StateMap) (r : JValue) :
    (dict_update st r).bind (fun s => dict_update s r) = dict_update st r := by
  cases r <;> simp [dict_update, except_bind_ok, except_bind_error, updateAll_idem]

theorem setdefault_update_idem (st : StateMap) (key : String) (r : JValue) :
    (setdefault_update st key r).bind (fun s => setdefault_update s key r)
      = setdefault_update st key r := by
  rcases hcur : (lookupKey st key).getD (.obj []) with _ | b | n | s | el | fs <;>
    simp only [setdefault_update, hcur, except_bind_error]
  cases r with
  | obj rf =>
      simp only [except_bind_ok, setdefault_update, lookupKey_setKey_self, Option.getD_some,
        updateAll_idem, setKey_setKey_same]
  | null => rfl
  | bool b => rfl
  | num n => rfl
  | str s => rfl
  | arr el => rfl

theorem setdefault_setitem_idem (st : StateMap) (outer inner : String) (r : JValue) :
    (setdefault_setitem st outer inner r).bind (fun s => setdefault_setitem s outer inner r)
      = setdefault_setitem st outer inner r := by
  rcases hcur : (lookupKey st outer).getD (.obj []) with _ | b | n | s | el | fs <;>
    simp only [setdefault_setitem, hcur, except_bind_error]
  simp only [except_bind_ok, setdefault_setitem, lookupKey_setKey_self, Option.getD_some,
    setKey_setKey_same]

theorem sol_eval_merge_idem (st : StateMap) (r : JValue) :
    sol_eval_merge (sol_eval_merge st r) r = sol_eval_merge st r := by
  unfold sol_eval_merge
  cases h : py_max_by_score r with
  | ok top =>
      exact double_set_idem st "evaluations" "top_solution" r top (by decide)
  | error e =>
      exact double_set_idem st "evaluations" "top_solution" r r (by decide)

theorem py_get_set_idem (st : StateMap) (r : JValue) (field key : String) :
    ((match py_get r field with
      | .ok v => (.ok (setKey st key v) : Except PyErr StateMap)
      | .error e => .error e)).bind (fun s =>
        match py_get r field with
        | .ok v => (.ok (setKey s key v) : Except PyErr StateMap)
        | .error e => .error e)
      = match py_get r field with
        | .ok v => .ok (setKey st key v)
        | .error e => .error e := by
  cases r <;> simp [py_get, except_bind_ok, except_bind_error, setKey_setKey_same]

/-- C9: for every ability name and every fixed result value, applying that
ability's merge rule (`LangieAgent.apply_result_to_state`) twice in
succession yields the same State as applying it once — each merge rule is
idempotent given the same result value (an exception raised by the first
application propagates, so the sequenced double application equals the
single one in every case). -/
theorem C9_merge_rules_idempotent (a : String) (r : JValue) (st : StateMap) :
    (apply_result_to_state a r st).bind (fun s => apply_result_to_state a r s)
      = apply_result_to_state a r st := by
  by_cases h1 : a = "accept_payload"
  · subst h1; simp only [apply_accept_eq]; exact dict_update_idem st r
  by_cases h2 : a = "parse_request_text"
  · subst h2; simp [apply_parse_eq, except_bind_ok, setKey_setKey_same]
  by_cases h3 : a = "extract_entities"
  · subst h3; simp [apply_entities_eq, except_bind_ok, setKey_setKey_same]
  by_cases h4 : a = "normalize_fields"
  · subst h4; simp only [apply_normalize_eq]; exact dict_update_idem st r
  by_cases h5 : a = "enrich_records"
  · subst h5; simp only [apply_enrich_eq]; exact setdefault_update_idem st "enrichment" r
  by_cases h6 : a = "add_flags_calculations"
  · subst h6; simp only [apply_flags_eq]; exact setdefault_update_idem st "flags" r
  by_cases h7 : a = "clarify_question"
  · subst h7
    simp only [apply_clarify_eq]
    cases r with
    | obj fs =>
        simp only [py_get, except_bind_ok]
        exact congrArg Except.ok
          (double_set_idem st "clarify_question" "human_reply" _ _ (by decide))
    | null => rfl
    | bool b => rfl
    | num n => rfl
    | str s => rfl
    | arr el => rfl
  by_cases h8 : a = "extract_answer"
  · subst h8; simp only [apply_extract_answer_eq]; exact py_get_set_idem st r "answer" "human_answer"
  by_cases h9 : a = "store_answer"
  · subst h9; simp only [apply_store_answer_eq]; exact py_get_set_idem st r "stored" "stored_answer"
  by_cases h10 : a = "knowledge_base_search"
  · subst h10; simp [apply_kb_eq, except_bind_ok, setKey_setKey_same]
  by_cases h11 : a = "store_data"
  · subst h11; simp [apply_store_data_eq, except_bind_ok, setKey_setKey_same]
  by_cases h12 : a = "solution_evaluation"
  · subst h12; simp [apply_sol_eval_eq, except_bind_ok, sol_eval_merge_idem]
  by_cases h13 : a = "escalation_decision"
  · subst h13; simp [apply_escalation_eq, except_bind_ok, setKey_setKey_same]
  by_cases h14 : a = "update_payload"
  · subst h14; simp only [apply_update_payload_eq]; exact dict_update_idem st r
  by_cases h15 : a = "update_ticket"
  · subst h15; simp [apply_update_ticket_eq, except_bind_ok, setKey_setKey_same]
  by_cases h16 : a = "close_ticket"
  · subst h16; simp [apply_close_ticket_eq, except_bind_ok, setKey_setKey_same]
  by_cases h17 : a = "response_generation"
  · subst h17; simp only [apply_response_eq]; exact py_get_set_idem st r "response" "customer_response"
  by_cases h18 : a = "execute_api_calls"
  · subst h18; simp [apply_api_eq, except_bind_ok, setKey_setKey_same]
  by_cases h19 : a = "trigger_notifications"
  · subst h19; simp [apply_notifications_eq, except_bind_ok, setKey_setKey_same]
  by_cases h20 : a = "output_payload"
  · subst h20; simp [apply_output_eq, except_bind_ok, setKey_setKey_same]
  simp only [apply_result_unknown h1 h2 h3 h4 h5 h6 h7 h8 h9 h10 h11 h12 h13 h14 h15
    h16 h17 h18 h19 h20]
  exact setdefault_setitem_idem st "ability_outputs" a r

mutual
/-- Python `str()`/`repr()` rendering of a JSON value, used only to build
the text of log entries (`f"... {result}"`). -/
def pyRepr : JValue → String
  | .null => "None"
  | .bool true => "True"
  | .bool false => "False"
  | .num n => toString n
  | .str s => "\x27" ++ s ++ "\x27"
  | .arr l => "[" ++ pyReprElems l ++ "]"
  | .obj fs => "\x7b" ++ pyReprFields fs ++ "\x7d"
def pyReprElems : List JValue → String
  | [] => ""
  | [x] => pyRepr x
  | x :: y :: rest => pyRepr x ++ ", " ++ pyReprElems (y :: rest)
def pyReprFields : List (String × JValue) → String
  | [] => ""
  | [(k, v)] => "\x27" ++ k ++ "\x27: " ++ pyRepr v
  | (k, v) :: p :: rest => "\x27" ++ k ++ "\x27: " ++ pyRepr v ++ ", " ++ pyReprFields (p :: rest)
end

/-- Python `str()` as an f-string applies it: bare text for strings,
`repr`-style rendering for everything else. -/
def pyStr : JValue → String
  | .str s => s
  | v => pyRepr v

/-- One stage of the pipeline definition (an entry of `config.yaml`'s
`stages` list). -/
structure Stage where
  name : String
  mode : String
  abilities : List String

/-- Ghost record of one remote ability invocation: the name, request
payload, request context and routing hint passed to
`MCPClient.call_ability`. It mirrors the "Calling ability ..." log entry
and observes nothing the Python code does not compute. -/
structure CallRec where
  ability : String
  payload : StateMap
  context : StateMap
  hint : String

/-- The mutable fields of `LangieAgent` (plus the ghost call trace):
`state`, `initial_input` (set by `demo_run`), and `logs`. -/
structure Agent where
  state : StateMap
  initial_input : StateMap
  logs : List String
  calls : List CallRec

/-- The remote MCP server as an oracle: `.ok` is the parsed JSON body of a
success response; `.error` is any exception raised inside the `try` of
`execute_ability` (transport failure, timeout, or `raise_for_status` on a
non-success HTTP status), carrying its message. Arguments: ability name,
request payload, request context, `X-MCP-Client` routing hint. -/
abbrev Remote := String → StateMap → StateMap → String → Except String JValue

/-- Lookup in the `ability_to_mcp` routing table. -/
def lookupHint : List (String × String) → String → Option String
  | [], _ => none
  | (k, v) :: rest, key => if k = key then some v else lookupHint rest key

/-- Routing lookup `self.cfg.get("ability_to_mcp", dict()).get(ability_name, "COMMON")`. -/
def route_hint (route : List (String × String)) (ability : String) : String :=
  (lookupHint route ability).getD "COMMON"

/-- The base request payload
`{"query": self.state.get("query"), **self.state}`: a dict literal whose
`query` entry comes first (defaulting to `None`), over-written in place by
the state's own `query` entry if present. -/
def base_payload (st : StateMap) : StateMap :=
  updateAll [("query", (lookupKey st "query").getD .null)] st

/-- The request payload `execute_ability` sends: the pristine
`initial_input` copy for the ingest ability `accept_payload`, the
state-derived base payload otherwise. -/
def request_payload (ag : Agent) (ability : String) : StateMap :=
  if ability = "accept_payload" then ag.initial_input else base_payload ag.state

/-- The request context `execute_ability` sends: empty, except that
`extract_answer` carries `human_reply` from the state (the key is always
present in the context, with value `None` when the state lacks it); the
source's `clarify_question` branch is an explicit no-op (`pass`). -/
def request_context (ag : Agent) (ability : String) : StateMap :=
  if ability = "extract_answer"
  then [("human_reply", (lookupKey ag.state "human_reply").getD .null)]
  else []

/-- Logging (`LangieAgent.log`) without the wall-clock timestamp prefix (the
timestamp is I/O; entry count and message text are what the claims
observe). -/
def log_msg (ag : Agent) (m : String) : Agent := { ag with logs := ag.logs ++ [m] }

/-- The dispatcher `LangieAgent.execute_ability`: build the request, log, invoke the
remote; a remote failure is caught, logged and swallowed (`.ok` with
unchanged state); on success, `resp.get("result")` (AttributeError on a
non-dict body — outside the `try`) feeds `apply_result_to_state`, whose
exceptions also propagate. -/
def execute_ability (remote : Remote) (route : List (String × String)) (ag : Agent)
    (ability : String) : Except PyErr Agent :=
  let hint := route_hint route ability
  let payload := request_payload ag ability
  let context := request_context ag ability
  let ag1 : Agent :=
    { ag with
      logs := ag.logs ++ ["Calling ability " ++ ability ++ " via MCP=" ++ hint],
      calls := ag.calls ++ [⟨ability, payload, context, hint⟩] }
  match remote ability payload context hint with
  | .error e =>
      .ok (log_msg ag1 ("Ability " ++ ability ++ " failed: " ++ e))
  | .ok (.obj respf) =>
      match apply_result_to_state ability ((lookupKey respf "result").getD .null) ag1.state with
      | .error pe => .error pe
      | .ok st' =>
          .ok { ag1 with
            state := st',
            logs := ag1.logs ++ ["Ability " ++ ability ++ " returned via "
              ++ pyStr ((lookupKey respf "mcp_client").getD .null) ++ ": "
              ++ pyStr ((lookupKey respf "result").getD .null)] }
  | .ok _ => .error .attributeError

/-- The per-stage ability loop of `LangieAgent.run`. -/
def run_abilities (remote : Remote) (route : List (String × String)) :
    Agent → List String → Except PyErr Agent
  | ag, [] => .ok ag
  | ag, a :: rest =>
      match execute_ability remote route ag a with
      | .error e => .error e
      | .ok ag' => run_abilities remote route ag' rest

/-- One iteration of the stage loop of `LangieAgent.run`: log the stage
banner, then branch on the declared mode — every branch runs the same
sequential ability loop; an unrecognized mode only logs one extra line. -/
def run_stage (remote : Remote) (route : List (String × String)) (ag : Agent)
    (stg : Stage) : Except PyErr Agent :=
  let ag1 := log_msg ag ("=== Stage: " ++ stg.name ++ " (mode=" ++ stg.mode ++ ") ===")
  if stg.mode = "deterministic" ∨ stg.mode = "human" then
    run_abilities remote route ag1 stg.abilities
  else if stg.mode = "non-deterministic" then
    run_abilities remote route ag1 stg.abilities
  else
    run_abilities remote route
      (log_msg ag1 ("Unknown mode " ++ stg.mode ++ " - executing abilities sequentially"))
      stg.abilities

/-- The stage loop of `LangieAgent.run`. -/
def run_stages (remote : Remote) (route : List (String × String)) :
    Agent → List Stage → Except PyErr Agent
  | ag, [] => .ok ag
  | ag, stg :: rest =>
      match run_stage remote route ag stg with
      | .error e => .error e
      | .ok ag' => run_stages remote route ag' rest

/-- The pipeline definition (`config.yaml`): stages, routing table and
input schema. -/
structure Config where
  stages : List Stage
  ability_to_mcp : List (String × String)
  input_schema : List String

/-- The in-place null seeding at the top of `LangieAgent.run`:
`for k in input_schema: if k not in input_payload: input_payload[k] = None`
(appends missing keys, in schema order, to the input payload object). -/
def seed_nulls (schema : List String) (d : StateMap) : StateMap :=
  schema.foldl (fun acc k => if (lookupKey acc k).isSome then acc else acc ++ [(k, .null)]) d

/-- The agent exactly as `demo_run` configures it at the moment the stage
loop starts: `agent.initial_input = data` ALIASES the very object that
`run(data)` null-seeds in place, so by stage time `initial_input` carries
the seeded keys, while `agent.state = data.copy()` was copied BEFORE the
seeding and carries none of them. -/
def mk_demo_agent (cfg : Config) (data : StateMap) : Agent :=
  { state := data,
    initial_input := seed_nulls cfg.input_schema data,
    logs := [],
    calls := [] }

/-- The entry point `demo_run` composed with `LangieAgent.run`, up to the returned final
state (file writes are I/O sinks outside the core). -/
def demo_run (remote : Remote) (cfg : Config) (data : StateMap) : Except PyErr Agent :=
  run_stages remote cfg.ability_to_mcp (mk_demo_agent cfg data) cfg.stages

/-- The concatenation of the stages' ability lists in declared order — the
walker sequence of §4.1 of the specification. -/
def stages_abilities : List Stage → List String
  | [] => []
  | s :: rest => s.abilities ++ stages_abilities rest

/-- The mode-independent observables of an agent: state, initial input and
call trace (everything except the log text). -/
def Agent.core (ag : Agent) : StateMap × StateMap × List CallRec :=
  (ag.state, ag.initial_input, ag.calls)

/-- The `extract_answer` handler of `src/mcp_server.py` (`ability`,
lines 106-108): `answer = context.get("human_reply", "No reply provided")`,
echoed inside a success envelope with the routing hint. -/
def server_extract_answer (hint : String) (context : StateMap) : JValue :=
  .obj [("status", .str "ok"), ("mcp_client", .str hint),
    ("result", .obj [("answer", (lookupKey context "human_reply").getD (.str "No reply provided"))])]

/-- A remote oracle running the embedded `extract_answer` server handler
(other abilities answer with the server's 404 error path; they are not
exercised through this oracle). -/
def remote_mcp_extract_answer : Remote := fun ability _payload context hint =>
  if ability = "extract_answer" then .ok (server_extract_answer hint context)
  else .error "404 Not Found"

/-- A remote oracle for an unreachable server: every call raises a
transport error. -/
def remote_down : Remote := fun _ _ _ _ => .error "Connection refused"

theorem execute_ability_calls (remote : Remote) (route : List (String × String))
    (ag : Agent) (a : String) (ag' : Agent)
    (h : execute_ability remote route ag a = .ok ag') :
    ag'.calls.map CallRec.ability = ag.calls.map CallRec.ability ++ [a] := by
  simp only [execute_ability] at h
  rcases hrem : remote a (request_payload ag a) (request_context ag a) (route_hint route a)
    with e | resp
  · rw [hrem] at h
    simp only [Except.ok.injEq] at h
    subst h
    simp [log_msg]
  · rw [hrem] at h
    rcases resp with _ | b | n | s | el | respf
    · simp at h
    · simp at h
    · simp at h
    · simp at h
    · simp at h
    · dsimp only at h
      rcases hap : apply_result_to_state a ((lookupKey respf "result").getD .null) ag.state
        with pe | st'
      · rw [hap] at h; simp at h
      · rw [hap] at h
        simp only [Except.ok.injEq] at h
        subst h
        simp

theorem run_abilities_calls (remote : Remote) (route : List (String × String))
    (l : List String) :
    ∀ ag ag', run_abilities remote route ag l = .ok ag' →
      ag'.calls.map CallRec.ability = ag.calls.map CallRec.ability ++ l := by
  induction l with
  | nil =>
      intro ag ag' h
      simp only [run_abilities, Except.ok.injEq] at h
      subst h
      simp
  | cons a rest ih =>
      intro ag ag' h
      simp only [run_abilities] at h
      rcases hx : execute_ability remote route ag a with e | ag1
      · rw [hx] at h; simp at h
      · rw [hx] at h
        rw [ih ag1 ag' h, execute_ability_calls remote route ag a ag1 hx]
        simp

theorem run_stage_calls (remote : Remote) (route : List (String × String))
    (stg : Stage) (ag ag' : Agent)
    (h : run_stage remote route ag stg = .ok ag') :
    ag'.calls.map CallRec.ability = ag.calls.map CallRec.ability ++ stg.abilities := by
  simp only [run_stage] at h
  split_ifs at h <;>
    simpa [log_msg] using run_abilities_calls remote route stg.abilities _ _ h

theorem run_stages_calls (remote : Remote) (route : List (String × String))
    (stages : List Stage) :
    ∀ ag ag', run_stages remote route ag stages = .ok ag' →
      ag'.calls.map CallRec.ability = ag.calls.map CallRec.ability ++ stages_abilities stages := by
  induction stages with
  | nil =>
      intro ag ag' h
      simp only [run_stages, Except.ok.injEq] at h
      subst h
      simp [stages_abilities]
  | cons stg rest ih =>
      intro ag ag' h
      simp only [run_stages] at h
      rcases hx : run_stage remote route ag stg with e | ag1
      · rw [hx] at h; simp at h
      · rw [hx] at h
        rw [ih ag1 ag' h, run_stage_calls remote route stg ag ag1 hx,
          stages_abilities, List.append_assoc]

theorem execute_ability_core (remote : Remote) (route : List (String × String)) (a : String)
    (s i : StateMap) (c : List CallRec) (l1 l2 : List String) :
    (execute_ability remote route ⟨s, i, l1, c⟩ a).map Agent.core
      = (execute_ability remote route ⟨s, i, l2, c⟩ a).map Agent.core := by
  have hp : request_payload ⟨s, i, l2, c⟩ a = request_payload ⟨s, i, l1, c⟩ a := rfl
  have hc : request_context ⟨s, i, l2, c⟩ a = request_context ⟨s, i, l1, c⟩ a := rfl
  simp only [execute_ability, hp, hc]
  rcases remote a (request_payload ⟨s, i, l1, c⟩ a) (request_context ⟨s, i, l1, c⟩ a)
      (route_hint route a) with e | resp
  · rfl
  · rcases resp with _ | b | n | s' | el | respf
    · rfl
    · rfl
    · rfl
    · rfl
    · rfl
    · dsimp only
      rcases apply_result_to_state a ((lookupKey respf "result").getD .null) s with pe | st'
      · rfl
      · rfl

theorem run_abilities_core (remote : Remote) (route : List (String × String))
    (l : List String) :
    ∀ (s i : StateMap) (c : List CallRec) (l1 l2 : List String),
      (run_abilities remote route ⟨s, i, l1, c⟩ l).map Agent.core
        = (run_abilities remote route ⟨s, i, l2, c⟩ l).map Agent.core := by
  induction l with
  | nil => intro s i c l1 l2; rfl
  | cons a rest ih =>
      intro s i c l1 l2
      simp only [run_abilities]
      have hx := execute_ability_core remote route a s i c l1 l2
      rcases h1 : execute_ability remote route ⟨s, i, l1, c⟩ a with e | ag1 <;>
        rcases h2 : execute_ability remote route ⟨s, i, l2, c⟩ a with e' | ag2 <;>
          rw [h1, h2] at hx <;> simp only [Except.map] at hx
      · simp only [Except.error.injEq] at hx
        subst hx
        rfl
      · simp at hx
      · simp at hx
      · simp only [Except.ok.injEq, Agent.core, Prod.mk.injEq] at hx
        obtain ⟨hs1, hi1, hc1⟩ := hx
        show (run_abilities remote route ⟨ag1.state, ag1.initial_input, ag1.logs, ag1.calls⟩
            rest).map Agent.core
          = (run_abilities remote route ⟨ag2.state, ag2.initial_input, ag2.logs, ag2.calls⟩
            rest).map Agent.core
        rw [← hs1, ← hi1, ← hc1]
        exact ih _ _ _ _ _

theorem run_stage_core (remote : Remote) (route : List (String × String))
    (stg stg' : Stage) (hab : stg.abilities = stg'.abilities)
    (s i : StateMap) (c : List CallRec) (l1 l2 : List String) :
    (run_stage remote route ⟨s, i, l1, c⟩ stg).map Agent.core
      = (run_stage remote route ⟨s, i, l2, c⟩ stg').map Agent.core := by
  simp only [run_stage, log_msg]
  split_ifs <;> rw [hab] <;>
    exact run_abilities_core remote route stg'.abilities _ _ _ _ _

theorem run_stages_core (remote : Remote) (route : List (String × String)) :
    ∀ (stages stages' : List Stage),
      stages.map Stage.abilities = stages'.map Stage.abilities →
      ∀ (s i : StateMap) (c : List CallRec) (l1 l2 : List String),
        (run_stages remote route ⟨s, i, l1, c⟩ stages).map Agent.core
          = (run_stages remote route ⟨s, i, l2, c⟩ stages').map Agent.core := by
  intro stages
  induction stages with
  | nil =>
      intro stages' hs
      cases stages' with
      | nil => intro s i c l1 l2; rfl
      | cons _ _ => simp at hs
  | cons stg rest ih =>
      intro stages' hs
      cases stages' with
      | nil => simp at hs
      | cons stg' rest' =>
          simp only [List.map_cons, List.cons.injEq] at hs
          intro s i c l1 l2
          simp only [run_stages]
          have hx := run_stage_core remote route stg stg' hs.1 s i c l1 l2
          rcases h1 : run_stage remote route ⟨s, i, l1, c⟩ stg with e | ag1 <;>
            rcases h2 : run_stage remote route ⟨s, i, l2, c⟩ stg' with e' | ag2 <;>
              rw [h1, h2] at hx <;> simp only [Except.map] at hx
          · simp only [Except.error.injEq] at hx
            subst hx
            rfl
          · simp at hx
          · simp at hx
          · simp only [Except.ok.injEq, Agent.core, Prod.mk.injEq] at hx
            obtain ⟨hs1, hi1, hc1⟩ := hx
            show (run_stages remote route
                ⟨ag1.state, ag1.initial_input, ag1.logs, ag1.calls⟩ rest).map Agent.core
              = (run_stages remote route
                ⟨ag2.state, ag2.initial_input, ag2.logs, ag2.calls⟩ rest').map Agent.core
            rw [← hs1, ← hi1, ← hc1]
            exact ih rest' hs.2 _ _ _ _ _

/-- The exact agent `execute_ability` returns when the remote invocation
raises: the two log entries are appended, the call is traced, and nothing
else — in particular `state` — changes. -/
theorem execute_ability_on_failure (remote : Remote) (route : List (String × String))
    (ag : Agent) (a : String) (e : String)
    (h : remote a (request_payload ag a) (request_context ag a) (route_hint route a)
      = .error e) :
    execute_ability remote route ag a = .ok (log_msg
      { ag with
        logs := ag.logs ++ ["Calling ability " ++ a ++ " via MCP=" ++ route_hint route a],
        calls := ag.calls
          ++ [⟨a, request_payload ag a, request_context ag a, route_hint route a⟩] }
      ("Ability " ++ a ++ " failed: " ++ e)) := by
  simp only [execute_ability, h]

/-- A small concrete agent used to instantiate theorems with hypotheses. -/
abbrev agFix : Agent := ⟨[("query", JValue.str "x")], [("query", JValue.str "x")], [], []⟩

/-- Two-stage pipeline fixture: recognized and unrecognized modes. -/
abbrev stagesW : List Stage :=
  [⟨"alpha", "deterministic", ["a1", "a2"]⟩, ⟨"beta", "weird", ["a3"]⟩]

/-- The same ability lists as `stagesW` under different declared modes. -/
abbrev stagesW2 : List Stage :=
  [⟨"alpha", "human", ["a1", "a2"]⟩, ⟨"beta", "non-deterministic", ["a3"]⟩]

/-- C1: for every pipeline definition, the sequence of ability names
executed by `LangieAgent.run` (the ghost call trace) equals the
concatenation of each stage's ability list in declared stage order, and
this sequence — together with the resulting state — is identical for
every stage mode value (deterministic, non-deterministic, human, or
unrecognized), which can change only the log text. The order statement is
about completed runs (a merge exception, which aborts the run, is the
subject of C8). -/
theorem C1_walker_order_and_mode_independence (remote : Remote)
    (route : List (String × String)) (s i : StateMap) (c : List CallRec)
    (l1 l2 : List String) (stages stages' : List Stage)
    (habs : stages.map Stage.abilities = stages'.map Stage.abilities) :
    (∀ ag', run_stages remote route ⟨s, i, l1, c⟩ stages = .ok ag' →
        ag'.calls.map CallRec.ability = c.map CallRec.ability ++ stages_abilities stages)
    ∧ (run_stages remote route ⟨s, i, l1, c⟩ stages).map Agent.core
        = (run_stages remote route ⟨s, i, l2, c⟩ stages').map Agent.core := by
  constructor
  · intro ag' h
    exact run_stages_calls remote route stages _ _ h
  · exact run_stages_core remote route stages stages' habs s i c l1 l2

theorem C1_witness :
    (stagesW.map Stage.abilities = stagesW2.map Stage.abilities)
    ∧ ((∀ ag', run_stages remote_down [] agFix stagesW = .ok ag' →
          ag'.calls.map CallRec.ability
            = agFix.calls.map CallRec.ability ++ stages_abilities stagesW)
      ∧ (run_stages remote_down [] agFix stagesW).map Agent.core
          = (run_stages remote_down [] agFix stagesW2).map Agent.core)
    ∧ (run_stages remote_down [] agFix stagesW).map (fun x => x.calls.map CallRec.ability)
        = .ok ["a1", "a2", "a3"] :=
  ⟨rfl,
    C1_walker_order_and_mode_independence remote_down [] _ _ _ _ _ stagesW stagesW2 rfl,
    rfl⟩

/-- C2: when the remote invocation of an ability raises (transport
failure, timeout, or non-success HTTP status — any `.error` of the
oracle), `execute_ability` returns normally with `state` exactly as
before the call, appends the "Ability ... failed: ..." log entry after
the "Calling ability ..." one, and the ability loop continues with every
subsequent ability of the walker sequence. -/
theorem C2_failed_ability_isolation (remote : Remote)
    (route : List (String × String)) (ag : Agent) (a : String) (e : String)
    (h : remote a (request_payload ag a) (request_context ag a) (route_hint route a)
      = .error e) :
    ∃ ag', execute_ability remote route ag a = .ok ag'
      ∧ ag'.state = ag.state
      ∧ ag'.logs = ag.logs
          ++ ["Calling ability " ++ a ++ " via MCP=" ++ route_hint route a,
              "Ability " ++ a ++ " failed: " ++ e]
      ∧ ∀ rest, run_abilities remote route ag (a :: rest)
          = run_abilities remote route ag' rest := by
  refine ⟨_, execute_ability_on_failure remote route ag a e h, rfl, ?_, ?_⟩
  · simp [log_msg, List.append_assoc]
  · intro rest
    simp only [run_abilities, execute_ability_on_failure remote route ag a e h]

theorem C2_witness :
    (remote_down "parse_request_text" (request_payload agFix "parse_request_text")
        (request_context agFix "parse_request_text") (route_hint [] "parse_request_text")
      = .error "Connection refused")
    ∧ ∃ ag', execute_ability remote_down [] agFix "parse_request_text" = .ok ag'
        ∧ ag'.state = agFix.state
        ∧ ag'.logs = agFix.logs
            ++ ["Calling ability " ++ "parse_request_text" ++ " via MCP="
                ++ route_hint [] "parse_request_text",
              "Ability " ++ "parse_request_text" ++ " failed: " ++ "Connection refused"]
        ∧ ∀ rest, run_abilities remote_down [] agFix ("parse_request_text" :: rest)
            = run_abilities remote_down [] ag' rest :=
  ⟨rfl, C2_failed_ability_isolation remote_down [] agFix
    "parse_request_text" "Connection refused" rfl⟩

/-- One-stage ingest-only pipeline with schema `["ticket_id"]`, from the
claim's example. -/
abbrev cfgC3 : Config := ⟨[⟨"s1", "deterministic", ["accept_payload"]⟩], [], ["ticket_id"]⟩

/-- The claim's example input payload. -/
abbrev dataC3 : StateMap := [("query", JValue.str "x")]

/-- C3 counterexample: with input {"query":"x"} and schema ["ticket_id"],
the ingest ability does NOT receive exactly {"query":"x"} — the recorded
request payload is {"query":"x","ticket_id":null}, because `demo_run`'s
`initial_input` aliases the very input-payload object that `run`
null-seeds in place before any stage executes. -/
theorem C3_counterexample :
    (demo_run remote_down cfgC3 dataC3).map (fun ag => ag.calls.map CallRec.payload)
      = .ok [[("query", JValue.str "x"), ("ticket_id", JValue.null)]]
    ∧ [[("query", JValue.str "x"), ("ticket_id", JValue.null)]]
        ≠ [[("query", JValue.str "x")]] := by
  refine ⟨rfl, ?_⟩
  intro h
  simp at h

/-- C3 (amended): the ingest request payload equals `initial_input` as
held at call time; under `demo_run` that aliases the null-seeded input
payload, so the ingest ability receives the raw input EXTENDED with null
defaults for the missing input-schema keys — with input {"query":"x"} and
schema ["ticket_id"] it receives exactly {"query":"x","ticket_id":null}. -/
theorem C3_amended_ingest_receives_seeded_input :
    (∀ ag, request_payload ag "accept_payload" = ag.initial_input)
    ∧ (∀ cfg data, (mk_demo_agent cfg data).initial_input = seed_nulls cfg.input_schema data)
    ∧ (demo_run remote_down cfgC3 dataC3).map (fun ag => ag.calls.map CallRec.payload)
        = .ok [seed_nulls cfgC3.input_schema dataC3]
    ∧ seed_nulls cfgC3.input_schema dataC3
        = [("query", JValue.str "x"), ("ticket_id", JValue.null)] :=
  ⟨fun _ => rfl, fun _ _ => rfl, rfl, rfl⟩

/-- Stage-less pipeline with schema `["ticket_id"]`: its final state is
exactly the state at run start, before any ability executes. -/
abbrev cfgC4 : Config := ⟨[], [], ["ticket_id"]⟩

/-- C4 counterexample: at run start (observed through a pipeline with no
stages, so no ability ever executes), with input {"query":"x"} and schema
["ticket_id"], State is {"query":"x"} and NOT the claimed
{"query":"x","ticket_id":null}: `demo_run` copies the input into `state`
BEFORE `run` performs the null seeding, which lands on the input-payload
object instead. -/
theorem C4_counterexample :
    (demo_run remote_down cfgC4 dataC3).map Agent.state = .ok [("query", JValue.str "x")]
    ∧ [("query", JValue.str "x")]
        ≠ [("query", JValue.str "x"), ("ticket_id", JValue.null)] := by
  refine ⟨rfl, ?_⟩
  intro h
  simp at h

/-- C4 (amended): at run start, before any ability executes, State equals
the caller-supplied input payload exactly as `demo_run` copied it before
the seeding; the null defaults for the missing input-schema keys are
applied to the input-payload object (aliased by `initial_input`), not to
State. -/
theorem C4_amended_state_at_run_start :
    (∀ cfg data, (mk_demo_agent cfg data).state = data)
    ∧ (∀ cfg data, (mk_demo_agent cfg data).initial_input = seed_nulls cfg.input_schema data)
    ∧ (∀ remote cfg data, demo_run remote cfg data
        = run_stages remote cfg.ability_to_mcp (mk_demo_agent cfg data) cfg.stages)
    ∧ seed_nulls ["ticket_id"] [("query", JValue.str "x")]
        = [("query", JValue.str "x"), ("ticket_id", JValue.null)] :=
  ⟨fun _ _ => rfl, fun _ _ => rfl, fun _ _ _ => rfl, rfl⟩

/-- The claim's 2-stage pipeline: one ability per stage. -/
abbrev cfgC5 : Config :=
  ⟨[⟨"s1", "deterministic", ["parse_request_text"]⟩,
    ⟨"s2", "deterministic", ["add_flags_calculations"]⟩], [], []⟩

/-- The claim's input payload. -/
abbrev dataC5 : StateMap := [("query", JValue.str " hi ")]

/-- The remote behavior stipulated by the claim: `parse_request_text`
returns result {"summary":"hi"} and `add_flags_calculations` returns
result {"risk":"LOW"} (the shapes the embedded server handlers produce
for this input). -/
def remoteC5 : Remote := fun ability _payload _context hint =>
  if ability = "parse_request_text" then
    .ok (.obj [("status", .str "ok"), ("mcp_client", .str hint),
      ("result", .obj [("summary", .str "hi")])])
  else if ability = "add_flags_calculations" then
    .ok (.obj [("status", .str "ok"), ("mcp_client", .str hint),
      ("result", .obj [("risk", .str "LOW")])])
  else .error "404 Not Found"

/-- C5 counterexample: the stipulated 2-stage run produces 6 log entries,
not 4 (each stage also logs a banner entry), and final State holds
summary = {"summary":"hi"} — the whole result mapping assigned by
`state["summary"] = result` — not summary = "hi". The flags part of the
claim does hold. -/
theorem C5_counterexample :
    (demo_run remoteC5 cfgC5 dataC5).map
        (fun ag => (ag.logs.length, lookupKey ag.state "summary", lookupKey ag.state "flags"))
      = .ok (6, some (JValue.obj [("summary", JValue.str "hi")]),
          some (JValue.obj [("risk", JValue.str "LOW")]))
    ∧ (6 : Nat) ≠ 4
    ∧ some (JValue.obj [("summary", JValue.str "hi")]) ≠ some (JValue.str "hi") := by
  refine ⟨rfl, by decide, ?_⟩
  intro h
  simp at h

/-- C5 (amended): the 2-stage run on input {"query":" hi "} with the
stipulated ability results yields final State containing
summary = {"summary":"hi"} (the whole result mapping) and
flags = {"risk":"LOW"}, and the log contains exactly 6 entries — one
stage banner per stage plus a pre-call and a post-call entry per
ability, with exactly this text. -/
theorem C5_amended_end_to_end :
    (demo_run remoteC5 cfgC5 dataC5).map
        (fun ag => (ag.logs.length, lookupKey ag.state "summary", lookupKey ag.state "flags"))
      = .ok (6, some (JValue.obj [("summary", JValue.str "hi")]),
          some (JValue.obj [("risk", JValue.str "LOW")]))
    ∧ (demo_run remoteC5 cfgC5 dataC5).map Agent.logs
      = .ok ["=== Stage: s1 (mode=deterministic) ===",
          "Calling ability parse_request_text via MCP=COMMON",
          "Ability parse_request_text returned via COMMON: \x7b\x27summary\x27: \x27hi\x27\x7d",
          "=== Stage: s2 (mode=deterministic) ===",
          "Calling ability add_flags_calculations via MCP=COMMON",
          "Ability add_flags_calculations returned via COMMON: \x7b\x27risk\x27: \x27LOW\x27\x7d"] :=
  ⟨rfl, rfl⟩

/-- An element on which the `max` key function and comparison are defined:
a mapping whose `score`, if present, is a number (absent defaults to 0). -/
def scorable : JValue → Bool
  | .obj fs =>
      match lookupKey fs "score" with
      | some (.num _) => true
      | none => true
      | _ => false
  | _ => false

/-- The integer score `x.get("score", 0)` of a scorable element (junk 0 on
non-scorable values, which the lemmas exclude). -/
def scoreD : JValue → Int
  | .obj fs =>
      match lookupKey fs "score" with
      | some (.num n) => n
      | _ => 0
  | _ => 0

theorem score_of_scorable (x : JValue) (h : scorable x = true) :
    score_of x = .ok (.num (scoreD x)) := by
  cases x with
  | obj fs =>
      rcases hl : lookupKey fs "score" with _ | v
      · simp [score_of, scoreD, hl]
      · cases v with
        | num n => simp [score_of, scoreD, hl]
        | null => simp [scorable, hl] at h
        | bool b => simp [scorable, hl] at h
        | str s => simp [scorable, hl] at h
        | arr el => simp [scorable, hl] at h
        | obj f2 => simp [scorable, hl] at h
  | null => simp [scorable] at h
  | bool b => simp [scorable] at h
  | num n => simp [scorable] at h
  | str s => simp [scorable] at h
  | arr el => simp [scorable] at h

/-- The maximum of `b` and the scores of `l`. -/
def foldMax (b : Int) (l : List JValue) : Int :=
  l.foldl (fun m x => max m (scoreD x)) b

theorem foldMax_nil (b : Int) : foldMax b [] = b := rfl

theorem foldMax_cons (b : Int) (x : JValue) (l : List JValue) :
    foldMax b (x :: l) = foldMax (max b (scoreD x)) l := rfl

theorem le_foldMax (l : List JValue) : ∀ b : Int, b ≤ foldMax b l := by
  induction l with
  | nil => intro b; exact le_refl b
  | cons x r ih =>
      intro b
      rw [foldMax_cons]
      exact le_trans (le_max_left _ _) (ih _)

/-- The pure shape of Python's `max(..., key=...)` loop: replace the
current best only on a strictly greater score. -/
def fmax : JValue → Int → List JValue → JValue
  | best, _, [] => best
  | best, b, x :: rest => if scoreD x > b then fmax x (scoreD x) rest else fmax best b rest

theorem max_loop_eq_fmax (l : List JValue) :
    ∀ (best : JValue) (b : Int), (∀ x ∈ l, scorable x = true) →
      max_loop best (.num b) l = .ok (fmax best b l) := by
  induction l with
  | nil => intro best b _; rfl
  | cons x r ih =>
      intro best b hall
      have hx : scorable x = true := hall x (List.mem_cons_self x r)
      have hrest : ∀ y ∈ r, scorable y = true := fun y hy => hall y (List.mem_cons_of_mem x hy)
      by_cases hgt : scoreD x > b
      · simp only [max_loop, score_of_scorable x hx, py_gt, decide_eq_true hgt, fmax,
          if_pos hgt]
        exact ih x (scoreD x) hrest
      · simp only [max_loop, score_of_scorable x hx, py_gt, decide_eq_false hgt, fmax,
          if_neg hgt]
        exact ih best b hrest

theorem fmax_of_all_le (r : List JValue) :
    ∀ (best : JValue) (b : Int), foldMax b r ≤ b → fmax best b r = best := by
  induction r with
  | nil => intro best b _; rfl
  | cons x t ih =>
      intro best b h
      rw [foldMax_cons] at h
      have hxb : scoreD x ≤ b :=
        le_trans (le_max_right b (scoreD x)) (le_trans (le_foldMax t _) h)
      rw [fmax, if_neg (not_lt.mpr hxb)]
      apply ih
      rwa [max_eq_left hxb] at h

/-- The predicate "this element's score attains the bound `m`", used to
state first-max-wins via `find?`. -/
def reaches (m : Int) (w : JValue) : Bool := decide (m ≤ scoreD w)

/-- The element Python's max loop keeps is the FIRST element whose score
attains the maximum: ties are resolved to the first-encountered one. -/
theorem fmax_first_find (l : List JValue) :
    ∀ (best : JValue) (b : Int), scoreD best = b →
      (best :: l).find? (reaches (foldMax b l)) = some (fmax best b l) := by
  induction l with
  | nil =>
      intro best b hb
      rw [foldMax_nil,
        List.find?_cons_of_pos _ (by simp only [reaches, decide_eq_true_eq, hb]; exact le_refl b)]
      rfl
  | cons x r ih =>
      intro best b hb
      rw [foldMax_cons]
      by_cases hgt : scoreD x > b
      · rw [max_eq_right (le_of_lt hgt)]
        have hnb : ¬ (reaches (foldMax (scoreD x) r) best = true) := by
          simp only [reaches, decide_eq_true_eq, hb]
          exact not_le.mpr (lt_of_lt_of_le hgt (le_foldMax r (scoreD x)))
        rw [List.find?_cons_of_neg _ hnb,
          show fmax best b (x :: r) = fmax x (scoreD x) r from by simp only [fmax, if_pos hgt]]
        exact ih x (scoreD x) rfl
      · have hxb : scoreD x ≤ b := not_lt.mp hgt
        rw [max_eq_left hxb,
          show fmax best b (x :: r) = fmax best b r from by simp only [fmax, if_neg hgt]]
        by_cases hMb : foldMax b r ≤ b
        · rw [List.find?_cons_of_pos _
              (by simp only [reaches, decide_eq_true_eq, hb]; exact hMb),
            fmax_of_all_le r best b hMb]
        · have hnb : ¬ (reaches (foldMax b r) best = true) := by
            simp only [reaches, decide_eq_true_eq, hb]
            exact hMb
          have hnx : ¬ (reaches (foldMax b r) x = true) := by
            simp only [reaches, decide_eq_true_eq]
            exact fun hle => hMb (le_trans hle hxb)
          rw [List.find?_cons_of_neg _ hnb, List.find?_cons_of_neg _ hnx]
          have hIH := ih best b hb
          rw [List.find?_cons_of_neg _ hnb] at hIH
          exact hIH

/-- The claim's candidate with score 40. -/
abbrev solA : JValue := .obj [("solution", .str "A"), ("score", .num 40)]

/-- The claim's candidate "B", the first of the two tied maxima. -/
abbrev solB : JValue := .obj [("solution", .str "B"), ("score", .num 95)]

/-- The claim's candidate "C", tied with "B". -/
abbrev solC : JValue := .obj [("solution", .str "C"), ("score", .num 95)]

/-- The claim's candidate list `[A:40, B:95, C:95]`. -/
abbrev candsABC : JValue := .arr [solA, solB, solC]

/-- C6: the `solution_evaluation` merge sets `evaluations` to the result
and `top_solution` to the element with maximum score, ties resolved to
the first-encountered element (stated via `find?` with the
attains-the-maximum predicate); a result that is not a sequence leaves
`top_solution` = the result itself; the merge never raises; and on the
concrete candidates `[A:40, B:95, C:95]` the top solution is the "B"
element. -/
theorem C6_solution_evaluation_merge :
    (∀ (st : StateMap) (x : JValue) (rest : List JValue),
        (∀ y ∈ x :: rest, scorable y = true) →
        ∃ z, py_max_by_score (.arr (x :: rest)) = .ok z
          ∧ (x :: rest).find? (reaches (foldMax (scoreD x) rest)) = some z
          ∧ apply_result_to_state "solution_evaluation" (.arr (x :: rest)) st
              = .ok (setKey (setKey st "evaluations" (.arr (x :: rest))) "top_solution" z))
    ∧ (∀ (st : StateMap) (r : JValue), (∀ xs, r ≠ .arr xs) →
        apply_result_to_state "solution_evaluation" r st
          = .ok (setKey (setKey st "evaluations" r) "top_solution" r))
    ∧ (∀ (st : StateMap) (r : JValue), ∃ st',
        apply_result_to_state "solution_evaluation" r st = .ok st')
    ∧ (∀ st : StateMap,
        (apply_result_to_state "solution_evaluation" candsABC st).map
            (fun s => lookupKey s "top_solution")
          = .ok (some solB)) := by
  refine ⟨fun st x rest hall => ?_, fun st r hne => ?_,
    fun st r => ⟨_, apply_sol_eval_eq r st⟩, fun st => ?_⟩
  · have hx : scorable x = true := hall x (List.mem_cons_self x rest)
    have hpm : py_max_by_score (.arr (x :: rest)) = .ok (fmax x (scoreD x) rest) := by
      simp only [py_max_by_score, score_of_scorable x hx]
      exact max_loop_eq_fmax rest x (scoreD x) (fun y hy => hall y (List.mem_cons_of_mem x hy))
    refine ⟨fmax x (scoreD x) rest, hpm, fmax_first_find rest x (scoreD x) rfl, ?_⟩
    rw [apply_sol_eval_eq]
    simp only [sol_eval_merge, hpm]
  · cases r with
    | arr xs => exact absurd rfl (hne xs)
    | null => rfl
    | bool b => rfl
    | num n => rfl
    | str s => rfl
    | obj fs => rfl
  · rw [apply_sol_eval_eq]
    have hpm : py_max_by_score candsABC = .ok solB := rfl
    simp only [sol_eval_merge, hpm, Except.map, lookupKey_setKey_self]

theorem C6_witness :
    (∀ y ∈ ([solA, solB, solC] : List JValue), scorable y = true)
    ∧ (∃ z, py_max_by_score (.arr (solA :: [solB, solC])) = .ok z
        ∧ (solA :: [solB, solC]).find?
            (reaches (foldMax (scoreD solA) [solB, solC])) = some z
        ∧ apply_result_to_state "solution_evaluation" (.arr (solA :: [solB, solC])) []
            = .ok (setKey (setKey [] "evaluations" (.arr (solA :: [solB, solC])))
                "top_solution" z))
    ∧ ((∀ xs, JValue.null ≠ JValue.arr xs)
      ∧ apply_result_to_state "solution_evaluation" .null []
          = .ok (setKey (setKey [] "evaluations" .null) "top_solution" .null))
    ∧ (apply_result_to_state "solution_evaluation" candsABC []).map
        (fun s => lookupKey s "top_solution") = .ok (some solB) := by
  refine ⟨by decide, C6_solution_evaluation_merge.1 [] solA [solB, solC] (by decide),
    ⟨fun xs h => JValue.noConfusion h,
      C6_solution_evaluation_merge.2.1 [] .null (fun xs h => JValue.noConfusion h)⟩,
    C6_solution_evaluation_merge.2.2.2 []⟩

/-- C7 counterexample: running `extract_answer` against the embedded
server handler with a State that LACKS `human_reply` yields
State.human_answer = null, not the claimed "No reply provided": the agent
always sends the context key `human_reply` (with value null), so the
server's `.get` default never fires. -/
theorem C7_counterexample :
    (execute_ability remote_mcp_extract_answer [] agFix "extract_answer").map
        (fun a2 => lookupKey a2.state "human_answer") = .ok (some JValue.null)
    ∧ some JValue.null ≠ some (JValue.str "No reply provided")
    ∧ (execute_ability remote_mcp_extract_answer [] agFix "extract_answer").map
        (fun a2 => a2.calls.map CallRec.context) = .ok [[("human_reply", JValue.null)]] := by
  refine ⟨rfl, ?_, rfl⟩
  intro h
  simp at h

/-- C7 (amended): for `extract_answer` the request context always carries
a `human_reply` field taken from State (null when the State key is
absent); end-to-end against the embedded server handler, an absent State
key therefore makes State.human_answer null. The server-side default
"No reply provided" is returned only when the context itself omits the
key — which the agent never does for this ability. -/
theorem C7_amended_extract_answer_context (ag : Agent) (route : List (String × String))
    (h : lookupKey ag.state "human_reply" = none) :
    request_context ag "extract_answer" = [("human_reply", JValue.null)]
    ∧ (execute_ability remote_mcp_extract_answer route ag "extract_answer").map
        (fun a2 => lookupKey a2.state "human_answer") = .ok (some JValue.null)
    ∧ (∀ (hint : String) (ctx : StateMap), lookupKey ctx "human_reply" = none →
        server_extract_answer hint ctx
          = .obj [("status", .str "ok"), ("mcp_client", .str hint),
              ("result", .obj [("answer", .str "No reply provided")])]) := by
  have hctx : request_context ag "extract_answer" = [("human_reply", JValue.null)] := by
    simp [request_context, h]
  refine ⟨hctx, ?_, fun hint ctx hc => by simp [server_extract_answer, hc]⟩
  simp only [execute_ability, remote_mcp_extract_answer, hctx]
  simp [server_extract_answer, lookupKey, apply_extract_answer_eq, py_get,
    Except.map, lookupKey_setKey_self]

theorem C7_witness :
    (lookupKey agFix.state "human_reply" = none)
    ∧ (request_context agFix "extract_answer" = [("human_reply", JValue.null)]
      ∧ (execute_ability remote_mcp_extract_answer [] agFix "extract_answer").map
          (fun a2 => lookupKey a2.state "human_answer") = .ok (some JValue.null)
      ∧ (∀ (hint : String) (ctx : StateMap), lookupKey ctx "human_reply" = none →
          server_extract_answer hint ctx
            = .obj [("status", .str "ok"), ("mcp_client", .str hint),
                ("result", .obj [("answer", .str "No reply provided")])])) :=
  ⟨rfl, C7_amended_extract_answer_context agFix [] rfl⟩

/-- A remote whose success response carries `result: null` (the same
effect as a success response missing the `result` field). -/
def remote_null_result : Remote := fun _ _ _ _ =>
  .ok (.obj [("status", .str "ok"), ("result", .null)])

/-- C8 counterexample: a successful `accept_payload` invocation whose
result is null (not a mapping) makes the merge raise `TypeError`
(`state.update(None)`), and since `apply_result_to_state` runs OUTSIDE
the `try/except` of `execute_ability`, the exception propagates and
aborts the run: the subsequent ability is never executed. -/
theorem C8_counterexample :
    apply_result_to_state "accept_payload" .null [] = .error .typeError
    ∧ execute_ability remote_null_result [] agFix "accept_payload" = .error .typeError
    ∧ run_abilities remote_null_result [] agFix ["accept_payload", "parse_request_text"]
        = .error .typeError :=
  ⟨rfl, rfl, rfl⟩

/-- Whether a JSON value is a mapping. -/
def is_obj : JValue → Bool
  | .obj _ => true
  | _ => false

/-- The value of `st[k]`, if present, is a mapping (vacuously true when
absent, since `setdefault` then inserts `{}`). -/
def obj_or_absent (st : StateMap) (k : String) : Bool :=
  match lookupKey st k with
  | some v => is_obj v
  | none => true

/-- The conditions under which the merge rule of ability `a` cannot
raise: a mapping result for the shallow-merge rules (`accept_payload`,
`normalize_fields`, `update_payload`) and for the rules that read a field
of the result (`clarify_question`, `extract_answer`, `store_answer`,
`response_generation`); for `enrich_records` / `add_flags_calculations`
additionally a mapping (or absent) current value under the target key;
for an unrecognized ability a mapping (or absent) `ability_outputs`; no
condition for the remaining rules. -/
def merge_safe (a : String) (r : JValue) (st : StateMap) : Bool :=
  if a = "accept_payload" then is_obj r
  else if a = "parse_request_text" then true
  else if a = "extract_entities" then true
  else if a = "normalize_fields" then is_obj r
  else if a = "enrich_records" then is_obj r && obj_or_absent st "enrichment"
  else if a = "add_flags_calculations" then is_obj r && obj_or_absent st "flags"
  else if a = "clarify_question" then is_obj r
  else if a = "extract_answer" then is_obj r
  else if a = "store_answer" then is_obj r
  else if a = "knowledge_base_search" then true
  else if a = "store_data" then true
  else if a = "solution_evaluation" then true
  else if a = "escalation_decision" then true
  else if a = "update_payload" then is_obj r
  else if a = "update_ticket" then true
  else if a = "close_ticket" then true
  else if a = "response_generation" then is_obj r
  else if a = "execute_api_calls" then true
  else if a = "trigger_notifications" then true
  else if a = "output_payload" then true
  else obj_or_absent st "ability_outputs"

theorem dict_update_of_obj (st : StateMap) (r : JValue) (h : is_obj r = true) :
    ∃ st', dict_update st r = .ok st' := by
  cases r with
  | obj fs => exact ⟨_, rfl⟩
  | null => simp [is_obj] at h
  | bool b => simp [is_obj] at h
  | num n => simp [is_obj] at h
  | str s => simp [is_obj] at h
  | arr el => simp [is_obj] at h

theorem setdefault_update_of_safe (st : StateMap) (key : String) (r : JValue)
    (hr : is_obj r = true) (hc : obj_or_absent st key = true) :
    ∃ st', setdefault_update st key r = .ok st' := by
  rcases hcur : lookupKey st key with _ | v
  · cases r with
    | obj rf =>
        exact ⟨setKey st key (.obj (updateAll [] rf)), by simp [setdefault_update, hcur]⟩
    | null => simp [is_obj] at hr
    | bool b => simp [is_obj] at hr
    | num n => simp [is_obj] at hr
    | str s => simp [is_obj] at hr
    | arr el => simp [is_obj] at hr
  · simp only [obj_or_absent, hcur] at hc
    cases v with
    | obj fs =>
        cases r with
        | obj rf =>
            exact ⟨setKey st key (.obj (updateAll fs rf)), by simp [setdefault_update, hcur]⟩
        | null => simp [is_obj] at hr
        | bool b => simp [is_obj] at hr
        | num n => simp [is_obj] at hr
        | str s => simp [is_obj] at hr
        | arr el => simp [is_obj] at hr
    | null => simp [is_obj] at hc
    | bool b => simp [is_obj] at hc
    | num n => simp [is_obj] at hc
    | str s => simp [is_obj] at hc
    | arr el => simp [is_obj] at hc

/-- C8 (amended): the merge step never raises PROVIDED the result is a
mapping where the rule shallow-merges or reads a field, and (for the
`setdefault`-based rules) the existing target value is a mapping; without
these conditions it can raise, and the exception is not caught by
`execute_ability` — it aborts the run (see the counterexample: a null
result for `accept_payload`). -/
theorem C8_amended_merge_no_raise (a : String) (r : JValue) (st : StateMap)
    (h : merge_safe a r st = true) :
    ∃ st', apply_result_to_state a r st = .ok st' := by
  by_cases h1 : a = "accept_payload"
  · subst h1
    exact dict_update_of_obj st r h
  by_cases h2 : a = "parse_request_text"
  · subst h2; exact ⟨_, rfl⟩
  by_cases h3 : a = "extract_entities"
  · subst h3; exact ⟨_, rfl⟩
  by_cases h4 : a = "normalize_fields"
  · subst h4
    exact dict_update_of_obj st r h
  by_cases h5 : a = "enrich_records"
  · subst h5
    have h' : (is_obj r && obj_or_absent st "enrichment") = true := h
    rw [Bool.and_eq_true] at h'
    exact setdefault_update_of_safe st "enrichment" r h'.1 h'.2
  by_cases h6 : a = "add_flags_calculations"
  · subst h6
    have h' : (is_obj r && obj_or_absent st "flags") = true := h
    rw [Bool.and_eq_true] at h'
    exact setdefault_update_of_safe st "flags" r h'.1 h'.2
  by_cases h7 : a = "clarify_question"
  · subst h7
    have h' : is_obj r = true := h
    cases r with
    | obj fs => exact ⟨_, rfl⟩
    | null => simp [is_obj] at h'
    | bool b => simp [is_obj] at h'
    | num n => simp [is_obj] at h'
    | str s => simp [is_obj] at h'
    | arr el => simp [is_obj] at h'
  by_cases h8 : a = "extract_answer"
  · subst h8
    have h' : is_obj r = true := h
    cases r with
    | obj fs => exact ⟨_, rfl⟩
    | null => simp [is_obj] at h'
    | bool b => simp [is_obj] at h'
    | num n => simp [is_obj] at h'
    | str s => simp [is_obj] at h'
    | arr el => simp [is_obj] at h'
  by_cases h9 : a = "store_answer"
  · subst h9
    have h' : is_obj r = true := h
    cases r with
    | obj fs => exact ⟨_, rfl⟩
    | null => simp [is_obj] at h'
    | bool b => simp [is_obj] at h'
    | num n => simp [is_obj] at h'
    | str s => simp [is_obj] at h'
    | arr el => simp [is_obj] at h'
  by_cases h10 : a = "knowledge_base_search"
  · subst h10; exact ⟨_, rfl⟩
  by_cases h11 : a = "store_data"
  · subst h11; exact ⟨_, rfl⟩
  by_cases h12 : a = "solution_evaluation"
  · subst h12; exact ⟨_, rfl⟩
  by_cases h13 : a = "escalation_decision"
  · subst h13; exact ⟨_, rfl⟩
  by_cases h14 : a = "update_payload"
  · subst h14
    exact dict_update_of_obj st r h
  by_cases h15 : a = "update_ticket"
  · subst h15; exact ⟨_, rfl⟩
  by_cases h16 : a = "close_ticket"
  · subst h16; exact ⟨_, rfl⟩
  by_cases h17 : a = "response_generation"
  · subst h17
    have h' : is_obj r = true := h
    cases r with
    | obj fs => exact ⟨_, rfl⟩
    | null => simp [is_obj] at h'
    | bool b => simp [is_obj] at h'
    | num n => simp [is_obj] at h'
    | str s => simp [is_obj] at h'
    | arr el => simp [is_obj] at h'
  by_cases h18 : a = "execute_api_calls"
  · subst h18; exact ⟨_, rfl⟩
  by_cases h19 : a = "trigger_notifications"
  · subst h19; exact ⟨_, rfl⟩
  by_cases h20 : a = "output_payload"
  · subst h20; exact ⟨_, rfl⟩
  rw [apply_result_unknown h1 h2 h3 h4 h5 h6 h7 h8 h9 h10 h11 h12 h13 h14 h15 h16 h17
    h18 h19 h20]
  have h' : obj_or_absent st "ability_outputs" = true := by
    have hm := h
    simp only [merge_safe, if_neg h1, if_neg h2, if_neg h3, if_neg h4, if_neg h5, if_neg h6,
      if_neg h7, if_neg h8, if_neg h9, if_neg h10, if_neg h11, if_neg h12, if_neg h13,
      if_neg h14, if_neg h15, if_neg h16, if_neg h17, if_neg h18, if_neg h19, if_neg h20]
      at hm
    exact hm
  rcases hcur : lookupKey st "ability_outputs" with _ | v
  · exact ⟨setKey st "ability_outputs" (.obj (setKey [] a r)),
      by simp [setdefault_setitem, hcur]⟩
  · simp only [obj_or_absent, hcur] at h'
    cases v with
    | obj fs =>
        exact ⟨setKey st "ability_outputs" (.obj (setKey fs a r)),
          by simp [setdefault_setitem, hcur]⟩
    | null => simp [is_obj] at h'
    | bool b => simp [is_obj] at h'
    | num n => simp [is_obj] at h'
    | str s => simp [is_obj] at h'
    | arr el => simp [is_obj] at h'

theorem C8_witness :
    (merge_safe "accept_payload" (JValue.obj [("a", JValue.num 1)]) [] = true)
    ∧ ∃ st', apply_result_to_state "accept_payload" (JValue.obj [("a", JValue.num 1)]) []
        = .ok st' :=
  ⟨rfl, C8_amended_merge_no_raise "accept_payload" (JValue.obj [("a", JValue.num 1)]) [] rfl⟩

/-- C10: for the direct-key-assignment merge rules (e.g.
`parse_request_text`/summary, `extract_entities`/entities,
`knowledge_base_search`/kb, `output_payload`/output_payload), a successful
remote response whose body LACKS a `result` field still triggers the
merge with `resp.get("result") = None`: the target State key is set to
null, not left absent. -/
theorem C10_missing_result_field_merges_null (remote : Remote)
    (route : List (String × String)) (ag : Agent) (a k : String)
    (hak : (a, k) ∈ [("parse_request_text", "summary"), ("extract_entities", "entities"),
      ("knowledge_base_search", "kb"), ("output_payload", "output_payload")])
    (respf : List (String × JValue))
    (hrem : remote a (request_payload ag a) (request_context ag a) (route_hint route a)
      = .ok (.obj respf))
    (hres : lookupKey respf "result" = none) :
    (execute_ability remote route ag a).map (fun a2 => lookupKey a2.state k)
      = .ok (some JValue.null) := by
  simp only [List.mem_cons, List.not_mem_nil, or_false] at hak
  rcases hak with hak | hak | hak | hak <;>
    (rw [Prod.mk.injEq] at hak
     obtain ⟨ha, hk⟩ := hak
     subst ha
     subst hk)
  · simp only [execute_ability, hrem, hres, Option.getD_none, apply_parse_eq, Except.map,
      lookupKey_setKey_self]
  · simp only [execute_ability, hrem, hres, Option.getD_none, apply_entities_eq, Except.map,
      lookupKey_setKey_self]
  · simp only [execute_ability, hrem, hres, Option.getD_none, apply_kb_eq, Except.map,
      lookupKey_setKey_self]
  · simp only [execute_ability, hrem, hres, Option.getD_none, apply_output_eq, Except.map,
      lookupKey_setKey_self]

/-- A remote whose success response has no `result` field at all. -/
def remote_status_only : Remote := fun _ _ _ _ => .ok (.obj [("status", .str "ok")])

theorem C10_witness :
    ((("parse_request_text", "summary") : String × String)
        ∈ [("parse_request_text", "summary"), ("extract_entities", "entities"),
          ("knowledge_base_search", "kb"), ("output_payload", "output_payload")])
    ∧ (remote_status_only "parse_request_text" (request_payload agFix "parse_request_text")
        (request_context agFix "parse_request_text") (route_hint [] "parse_request_text")
      = .ok (.obj [("status", JValue.str "ok")]))
    ∧ (lookupKey [("status", JValue.str "ok")] "result" = none)
    ∧ (execute_ability remote_status_only [] agFix "parse_request_text").map
        (fun a2 => lookupKey a2.state "summary") = .ok (some JValue.null) :=
  ⟨by simp, rfl, rfl,
    C10_missing_result_field_merges_null remote_status_only [] agFix
      "parse_request_text" "summary" (by simp) [("status", JValue.str "ok")] rfl rfl⟩
